import Mathlib

/-!
# AS5600 magnetic rotary sensor driver (`as5600_lib.h`, `as5600_lib.cpp`)

A shallow embedding of the driver class `as5600`.

* Machine integers are `Nat`, reduced `% 2^w` wherever the C++ code stores into
  a `uint8_t` / `uint16_t` object or passes one as a parameter.
* The I2C transport (`HAL_I2C_Mem_Read` / `HAL_I2C_Mem_Write`, supplied by the
  STM32 HAL and not part of the driver) is the environment.  It is a value of
  type `Bus`: an arbitrary response function of the device together with the
  list of transfers issued so far.  Every method takes the bus and returns the
  bus it leaves behind, so both the bytes delivered and the bus traffic are
  observable.
* A `float` or `double` value is the rational number it denotes.  Every
  floating-point operation, conversion and literal computes the exact result
  and rounds it to the nearest value of its type, ties to even (IEEE 754
  binary32 and binary64 in the default rounding mode).
-/

namespace AS5600Lib

/-! ## Register map (`as5600_lib.h`) -/

/-- Burn counter register (`ConfigRegisters`). -/
def ZMCO_ADR : Nat := 0x00
/-- Zero (start) position register (`ConfigRegisters`). -/
def ZPOS_ADR : Nat := 0x01
/-- Maximum (stop) position register (`ConfigRegisters`). -/
def MPOS_ADR : Nat := 0x03
/-- Maximum angle register (`ConfigRegisters`). -/
def MANG_ADR : Nat := 0x05
/-- Configuration register (`ConfigRegisters`). -/
def CONF_ADR : Nat := 0x07
/-- Unscaled angle register (`OutputRegisters`). -/
def RAW_ANGLE_ADR : Nat := 0x0c
/-- Scaled angle register (`OutputRegisters`). -/
def ANGLE_ADR : Nat := 0x0e
/-- Magnet status register (`StatusRegisters`). -/
def STATUS_ADR : Nat := 0x0b
/-- Automatic gain register (`StatusRegisters`). -/
def AGC_ADR : Nat := 0x1a
/-- Magnitude register (`StatusRegisters`). -/
def MAGNITUDE_ADR : Nat := 0x1b

/-! ## The I2C transport -/

/-- Value of the STM32 HAL constant selecting one-byte register addresses. -/
def I2C_MEMADD_SIZE_8BIT : Nat := 1

/-- One blocking transfer on the bus, with the arguments the HAL was called with.
A write also records the bytes that were sent. -/
inductive Transfer where
  | memRead (hi2c DevAddress MemAddress MemAddSize Size Timeout : Nat)
  | memWrite (hi2c DevAddress MemAddress MemAddSize : Nat) (pData : List Nat)
      (Size Timeout : Nat)
  deriving DecidableEq

/-- The transport and the device behind it.  `device n dev mem i` is the `i`-th
byte the `n`-th transfer deposits in the caller's buffer when it is a read of
register `mem` of the device at bus address `dev`; the function is arbitrary, so
it also stands for whatever a failed transfer leaves in the buffer.  `trace` is
the list of transfers issued so far, oldest first. -/
structure Bus where
  device : Nat → Nat → Nat → Nat → Nat
  trace : List Transfer

/-- The byte (a `uint8_t`) the next read of register `MemAddress` at bus address
`DevAddress` puts at offset `i` of the buffer. -/
def Bus.rx (bus : Bus) (DevAddress MemAddress i : Nat) : Nat :=
  bus.device bus.trace.length (DevAddress % 65536) (MemAddress % 65536) i % 256

/-- The bytes the next read of `Size` bytes of register `MemAddress` at bus
address `DevAddress` stores into the buffer. -/
def Bus.nextRead (bus : Bus) (DevAddress MemAddress Size : Nat) : List Nat :=
  (List.range Size).map (fun i => bus.rx DevAddress MemAddress i)

/-- The HAL call `HAL_I2C_Mem_Read(hi2c, DevAddress, MemAddress, MemAddSize, pData, Size, Timeout)`:
returns the `Size` bytes stored into `pData` and logs the transfer.  The
address and size parameters are `uint16_t`. -/
def HAL_I2C_Mem_Read (hi2c DevAddress MemAddress MemAddSize Size Timeout : Nat)
    (bus : Bus) : List Nat × Bus :=
  (bus.nextRead DevAddress MemAddress (Size % 65536),
   { bus with
     trace := bus.trace ++ [Transfer.memRead hi2c (DevAddress % 65536) (MemAddress % 65536)
       (MemAddSize % 65536) (Size % 65536) Timeout] })

/-- The HAL call `HAL_I2C_Mem_Write(hi2c, DevAddress, MemAddress, MemAddSize, pData, Size, Timeout)`:
sends the first `Size` bytes of `pData` and logs the transfer. -/
def HAL_I2C_Mem_Write (hi2c DevAddress MemAddress MemAddSize : Nat) (pData : List Nat)
    (Size Timeout : Nat) (bus : Bus) : Bus :=
  { bus with
    trace := bus.trace ++ [Transfer.memWrite hi2c (DevAddress % 65536) (MemAddress % 65536)
      (MemAddSize % 65536) (pData.take (Size % 65536)) (Size % 65536) Timeout] }

/-! ## Floating-point arithmetic

The exponent range of the formats is bounded below (gradual underflow) and left
unbounded above: the driver multiplies and divides 16-bit integers and
constants below 4096 only, so no value comes near the overflow threshold. -/

/-- The integer nearest to `m`, the even one of the two when `m` lies halfway. -/
def roundNE (m : ℚ) : ℤ :=
  let f := ⌊m⌋
  let r := m - f
  if r < 1 / 2 then f else if 1 / 2 < r then f + 1 else if f % 2 = 0 then f else f + 1

/-- The exponent `e` with `2 ^ e ≤ a < 2 ^ (e + 1)`, for positive `a`. -/
def ilog2 (a : ℚ) : ℤ :=
  let g : ℤ := (Nat.log2 a.num.natAbs : ℤ) - (Nat.log2 a.den : ℤ)
  if (2 : ℚ) ^ g ≤ a then g else g - 1

/-- Rounds `x` to the nearest binary floating-point number with `p` significand
bits and least normal exponent `emin`, ties to even. -/
def roundTo (p : ℕ) (emin : ℤ) (x : ℚ) : ℚ :=
  if x = 0 then 0
  else
    let e := max (ilog2 |x|) emin
    let q := e - ((p : ℤ) - 1)
    (roundNE (x / (2 : ℚ) ^ q) : ℚ) * (2 : ℚ) ^ q

/-- Conversion to `float` (binary32): a literal, a cast or a store. -/
def toFloat (x : ℚ) : ℚ := roundTo 24 (-126) x

/-- Conversion to `double` (binary64): a literal or an arithmetic conversion. -/
def toDouble (x : ℚ) : ℚ := roundTo 53 (-1022) x

/-- The product of two `float` operands. -/
def fmul (a b : ℚ) : ℚ := toFloat (a * b)

/-- The product of two `double` operands. -/
def dmul (a b : ℚ) : ℚ := toDouble (a * b)

/-- The difference of two `double` operands. -/
def dsub (a b : ℚ) : ℚ := toDouble (a - b)

/-- The quotient of two `double` operands. -/
def ddiv (a b : ℚ) : ℚ := toDouble (a / b)

/-! ## The driver object -/

/-- The data members of `class as5600`: the transport handle (an opaque
identifier), the `uint8_t` device address and the three `uint16_t` cached
calibration values. -/
structure as5600 where
  i2c : Nat
  address : Nat
  startPos : Nat
  stopPos : Nat
  maxAngle : Nat
  deriving DecidableEq

namespace as5600

/-- Method `uint16_t as5600::read12bit(uint8_t address)`. -/
def read12bit (this : as5600) (address : Nat) (bus : Bus) : Nat × as5600 × Bus :=
  let r := HAL_I2C_Mem_Read this.i2c (this.address <<< 1) (address % 256)
    I2C_MEMADD_SIZE_8BIT 2 1000 bus
  let data := r.1
  let value := (((data.getD 0 0 &&& 0x0f) <<< 8) ||| data.getD 1 0) % 65536
  (value, this, r.2)

/-- Method `void as5600::setAngleAsStart()`. -/
def setAngleAsStart (this : as5600) (bus : Bus) : as5600 × Bus :=
  let r := HAL_I2C_Mem_Read this.i2c (this.address <<< 1) RAW_ANGLE_ADR
    I2C_MEMADD_SIZE_8BIT 2 1000 bus
  let data := r.1
  let data := data.set 0 ((data.getD 0 0 &&& 0x0f) % 256)
  (this, HAL_I2C_Mem_Write this.i2c (this.address <<< 1) ZPOS_ADR
    I2C_MEMADD_SIZE_8BIT data 2 1000 r.2)

/-- Method `void as5600::setAngleAsStop()`. -/
def setAngleAsStop (this : as5600) (bus : Bus) : as5600 × Bus :=
  let r := HAL_I2C_Mem_Read this.i2c (this.address <<< 1) RAW_ANGLE_ADR
    I2C_MEMADD_SIZE_8BIT 2 1000 bus
  let data := r.1
  let data := data.set 0 ((data.getD 0 0 &&& 0x0f) % 256)
  (this, HAL_I2C_Mem_Write this.i2c (this.address <<< 1) MPOS_ADR
    I2C_MEMADD_SIZE_8BIT data 2 1000 r.2)

/-- Method `uint16_t as5600::readConfig()`. -/
def readConfig (this : as5600) (bus : Bus) : Nat × as5600 × Bus :=
  let r := HAL_I2C_Mem_Read this.i2c (this.address <<< 1) CONF_ADR
    I2C_MEMADD_SIZE_8BIT 2 1000 bus
  let buf := r.1
  (((buf.getD 0 0 <<< 8) ||| buf.getD 1 0) % 65536, this, r.2)

/-- Method `void as5600::writeConfig(uint8_t conf_msb, uint8_t conf_lsb)`. -/
def writeConfig (this : as5600) (conf_msb conf_lsb : Nat) (bus : Bus) : as5600 × Bus :=
  let buf := [conf_msb % 256, conf_lsb % 256]
  (this, HAL_I2C_Mem_Write this.i2c (this.address <<< 1) CONF_ADR
    I2C_MEMADD_SIZE_8BIT buf 2 1000 bus)

/-- Method `uint8_t as5600::checkMagnet()`. -/
def checkMagnet (this : as5600) (bus : Bus) : Nat × as5600 × Bus :=
  let r := HAL_I2C_Mem_Read this.i2c (this.address <<< 1) STATUS_ADR
    I2C_MEMADD_SIZE_8BIT 1 1000 bus
  let buffer := r.1.getD 0 0
  if buffer &&& 0x20 ≠ 0 then (0, this, r.2)
  else if buffer &&& 0x10 ≠ 0 then (1, this, r.2)
  else (2, this, r.2)

/-- Method `uint16_t as5600::getStartPos()`. -/
def getStartPos (this : as5600) (bus : Bus) : Nat × as5600 × Bus :=
  let r := this.read12bit ZPOS_ADR bus
  let val := r.1
  (val, { r.2.1 with startPos := val }, r.2.2)

/-- Method `uint16_t as5600::getStopPos()`. -/
def getStopPos (this : as5600) (bus : Bus) : Nat × as5600 × Bus :=
  let r := this.read12bit MPOS_ADR bus
  let val := r.1
  (val, { r.2.1 with stopPos := val }, r.2.2)

/-- Method `uint16_t as5600::getMaxAngle()`. -/
def getMaxAngle (this : as5600) (bus : Bus) : Nat × as5600 × Bus :=
  let r := this.read12bit MANG_ADR bus
  let val := r.1
  (val, { r.2.1 with maxAngle := val }, r.2.2)

/-- The local variable `multiplier` of `as5600::getAngle` at the `return`
statement: initialised to `0`, then assigned by the `if`/`else if` cascade.  The
right-hand sides are `double` expressions (the cached `uint16_t` values and the
`int` constants are converted to `double`), rounded to `float` by the store. -/
def getAngle_multiplier (this : as5600) : ℚ :=
  let multiplier : ℚ := toFloat 0
  if this.maxAngle > 0 then
    if this.startPos = 0 then
      toFloat (ddiv (dmul (toDouble this.maxAngle) (toDouble 0.088)) (toDouble 4096))
    else
      toFloat (ddiv (dmul (toDouble this.maxAngle) (toDouble 0.088)) (toDouble 4096))
  else
    if this.startPos = 0 ∧ this.stopPos = 0 then
      toFloat (toDouble 0.0878)
    else if this.startPos > 0 ∧ this.stopPos = 0 then
      toFloat (ddiv (dsub (dmul (toDouble 360) (toDouble 0.0878))
        (dmul (toDouble this.startPos) (toDouble 0.0878))) (toDouble 4096))
    else if this.startPos = 0 ∧ this.stopPos > 0 then
      toFloat (ddiv (dmul (toDouble this.stopPos) (toDouble 0.0878)) (toDouble 4096))
    else if this.startPos > 0 ∧ this.stopPos > 0 then
      toFloat (ddiv (dsub (dmul (toDouble this.stopPos) (toDouble 0.0878))
        (dmul (toDouble this.startPos) (toDouble 0.0878))) (toDouble 4096))
    else
      multiplier

/-- Method `float as5600::getAngle()`: the `float` product `(float)ang*multiplier`. -/
def getAngle (this : as5600) (bus : Bus) : ℚ × as5600 × Bus :=
  let r := this.read12bit ANGLE_ADR bus
  let ang := r.1
  (fmul (toFloat ang) r.2.1.getAngle_multiplier, r.2.1, r.2.2)

/-- Method `float as5600::getRawAngle()`: `(float)ang` is converted to `double`
for the product with the `double` literal, and the product is rounded to
`float` by the store into `angle`. -/
def getRawAngle (this : as5600) (bus : Bus) : ℚ × as5600 × Bus :=
  let r := this.read12bit RAW_ANGLE_ADR bus
  let ang := r.1
  let angle : ℚ := toFloat (dmul (toDouble (toFloat ang)) (toDouble 0.088))
  (angle, r.2.1, r.2.2)

/-- Constructor `as5600::as5600(I2C_HandleTypeDef *_i2c, uint8_t _address)`.  `mem` is the
uninitialised storage the object is constructed in. -/
def as5600_i2c_address (mem : as5600) (_i2c _address : Nat) (bus : Bus) : as5600 × Bus :=
  let this := { mem with i2c := _i2c }
  let this := { this with address := _address % 256 }
  let r := this.getStartPos bus
  let r := r.2.1.getStopPos r.2.2
  let r := r.2.1.getMaxAngle r.2.2
  r.2

/-- Constructor `as5600::as5600(I2C_HandleTypeDef *_i2c)`.  `mem` is the uninitialised
storage the object is constructed in. -/
def as5600_i2c (mem : as5600) (_i2c : Nat) (bus : Bus) : as5600 × Bus :=
  let this := { mem with i2c := _i2c }
  let this := { this with address := 0x36 % 256 }
  let r := this.getStartPos bus
  let r := r.2.1.getStopPos r.2.2
  let r := r.2.1.getMaxAngle r.2.2
  r.2

end as5600

/-! ## Sequences of method calls -/

/-- A call of one of the methods defined in `as5600_lib.cpp`, with its arguments. -/
inductive Op where
  | setAngleAsStart
  | setAngleAsStop
  | readConfig
  | writeConfig (conf_msb conf_lsb : Nat)
  | checkMagnet
  | getStartPos
  | getStopPos
  | getMaxAngle
  | getAngle
  | getRawAngle
  deriving DecidableEq

/-- The effect of one method call on the object and the bus (the returned value
is dropped). -/
def Op.run : Op → as5600 × Bus → as5600 × Bus
  | .setAngleAsStart, s => s.1.setAngleAsStart s.2
  | .setAngleAsStop, s => s.1.setAngleAsStop s.2
  | .readConfig, s => (s.1.readConfig s.2).2
  | .writeConfig m l, s => s.1.writeConfig m l s.2
  | .checkMagnet, s => (s.1.checkMagnet s.2).2
  | .getStartPos, s => (s.1.getStartPos s.2).2
  | .getStopPos, s => (s.1.getStopPos s.2).2
  | .getMaxAngle, s => (s.1.getMaxAngle s.2).2
  | .getAngle, s => (s.1.getAngle s.2).2
  | .getRawAngle, s => (s.1.getRawAngle s.2).2

/-- Runs the calls of `ops` in order. -/
def runOps (ops : List Op) (s : as5600 × Bus) : as5600 × Bus :=
  ops.foldl (fun s op => op.run s) s

/-- The calibration cache of the object holds 12-bit values. -/
def CacheInRange (this : as5600) : Prop :=
  this.startPos ≤ 4095 ∧ this.stopPos ≤ 4095 ∧ this.maxAngle ≤ 4095

/-- A transport whose device answers every read with the bytes of `regs mem`
(padded with zeroes), independently of time and bus address. -/
def mockBus (regs : Nat → List Nat) : Bus :=
  { device := fun _ _ mem i => (regs mem).getD i 0, trace := [] }

/-- Number of data bytes a transfer moves over the bus. -/
def Transfer.size : Transfer → Nat
  | .memRead _ _ _ _ Size _ => Size
  | .memWrite _ _ _ _ _ Size _ => Size

/-- Total number of data bytes moved by the transfers of a trace. -/
def traffic (trace : List Transfer) : Nat :=
  (trace.map Transfer.size).sum

/-- The bus after the further transfers `ts` have been issued on it. -/
def Bus.after (bus : Bus) (ts : List Transfer) : Bus :=
  { bus with trace := bus.trace ++ ts }

/-- The 12-bit value of the byte pair the next 2-byte read of register
`MemAddress` at bus address `DevAddress` delivers. -/
def Bus.next12 (bus : Bus) (DevAddress MemAddress : Nat) : Nat :=
  (bus.rx DevAddress MemAddress 0 % 16) * 256 + bus.rx DevAddress MemAddress 1

/-- The mocked transport of the end-to-end scenario: reads of the max-angle
register deliver `0x0f, 0xff`, reads of the zero-position and max-position
registers deliver `0, 0`, and reads of register `angleReg` deliver
`0x08, 0x00`; any other read delivers zeroes. -/
def endToEndBus (angleReg : Nat) : Bus :=
  mockBus (fun mem =>
    if mem = MANG_ADR then [0x0f, 0xff]
    else if mem = ZPOS_ADR ∨ mem = MPOS_ADR then [0, 0]
    else if mem = angleReg then [0x08, 0x00]
    else [])

/-! ## Auxiliary facts -/

theorem nextRead_one (bus : Bus) (dev mem : Nat) :
    bus.nextRead dev mem 1 = [bus.rx dev mem 0] := rfl

theorem nextRead_two (bus : Bus) (dev mem : Nat) :
    bus.nextRead dev mem 2 = [bus.rx dev mem 0, bus.rx dev mem 1] := rfl

theorem rx_lt (bus : Bus) (dev mem i : Nat) : bus.rx dev mem i < 256 :=
  Nat.mod_lt _ (by decide)

theorem nextRead_two_lt {bus : Bus} {dev mem b0 b1 : Nat}
    (h : bus.nextRead dev mem 2 = [b0, b1]) : b0 < 256 ∧ b1 < 256 := by
  rw [nextRead_two] at h
  simp only [List.cons.injEq, and_true] at h
  exact ⟨h.1 ▸ rx_lt _ _ _ _, h.2 ▸ rx_lt _ _ _ _⟩

theorem nextRead_one_lt {bus : Bus} {dev mem s : Nat}
    (h : bus.nextRead dev mem 1 = [s]) : s < 256 := by
  rw [nextRead_one] at h
  simp only [List.cons.injEq, and_true] at h
  exact h ▸ rx_lt _ _ _ _

theorem and_0x0f (b : Nat) : b &&& 0x0f = b % 16 :=
  Nat.and_pow_two_sub_one_eq_mod b 4

/-- The bit arithmetic of `read12bit` on a byte pair, before the conversion to
`uint16_t`. -/
theorem combine12_raw (b0 b1 : Nat) (h1 : b1 < 256) :
    (((b0 &&& 0x0f) <<< 8) ||| b1) = (b0 % 16) * 256 + b1 := by
  have hor : 2 ^ 8 * (b0 % 16) + b1 = 2 ^ 8 * (b0 % 16) ||| b1 :=
    Nat.mul_add_lt_is_or (by simpa using h1) _
  rw [and_0x0f, Nat.shiftLeft_eq, Nat.mul_comm, ← hor, Nat.mul_comm]

/-- The bit arithmetic of `read12bit` on a byte pair. -/
theorem combine12 (b0 b1 : Nat) (h1 : b1 < 256) :
    (((b0 &&& 0x0f) <<< 8) ||| b1) % 65536 = (b0 % 16) * 256 + b1 := by
  rw [combine12_raw b0 b1 h1]
  omega

theorem read12bit_fst (this : as5600) (address : Nat) (bus : Bus) :
    (this.read12bit address bus).1
      = (bus.rx (this.address <<< 1) (address % 256) 0 % 16) * 256
        + bus.rx (this.address <<< 1) (address % 256) 1 := by
  simp only [as5600.read12bit, HAL_I2C_Mem_Read, Nat.reduceMod, nextRead_two,
    List.getD_cons_zero, List.getD_cons_succ]
  exact combine12 _ _ (rx_lt _ _ _ _)

theorem read12bit_le (this : as5600) (address : Nat) (bus : Bus) :
    (this.read12bit address bus).1 ≤ 4095 := by
  rw [read12bit_fst]
  have := rx_lt bus (this.address <<< 1) (address % 256) 1
  omega

theorem read12bit_trace (this : as5600) (address : Nat) (bus : Bus) :
    (this.read12bit address bus).2.2.trace
      = bus.trace ++ [Transfer.memRead this.i2c ((this.address <<< 1) % 65536)
          (address % 256) 1 2 1000] := by
  have h : address % 256 % 65536 = address % 256 := by omega
  simp [as5600.read12bit, HAL_I2C_Mem_Read, I2C_MEMADD_SIZE_8BIT, h]

theorem and_two_pow_ne_zero (n k : Nat) : n &&& 2 ^ k ≠ 0 ↔ n.testBit k = true := by
  constructor
  · intro h
    by_contra hb
    apply h
    apply Nat.eq_of_testBit_eq
    intro j
    simp only [Nat.testBit_and, Nat.testBit_two_pow, Nat.zero_testBit]
    by_cases hj : k = j
    · subst hj; simp [hb]
    · simp [hj]
  · intro hb h
    have := congrArg (fun m => Nat.testBit m k) h
    simp [Nat.testBit_and, Nat.testBit_two_pow, hb] at this

theorem and_0x20_ne_zero (s : Nat) : s &&& 0x20 ≠ 0 ↔ s.testBit 5 = true :=
  and_two_pow_ne_zero s 5

theorem and_0x10_ne_zero (s : Nat) : s &&& 0x10 ≠ 0 ↔ s.testBit 4 = true :=
  and_two_pow_ne_zero s 4

theorem checkMagnet_fst (this : as5600) (bus : Bus) :
    (this.checkMagnet bus).1
      = if bus.rx (this.address <<< 1) STATUS_ADR 0 &&& 0x20 ≠ 0 then 0
        else if bus.rx (this.address <<< 1) STATUS_ADR 0 &&& 0x10 ≠ 0 then 1 else 2 := by
  simp only [as5600.checkMagnet, HAL_I2C_Mem_Read, Nat.reduceMod, nextRead_one,
    List.getD_cons_zero]
  split_ifs <;> rfl

theorem roundNE_le (m : ℚ) : (roundNE m : ℚ) ≤ m + 1 / 2 := by
  have h1 := Int.floor_le m
  have h2 := Int.lt_floor_add_one m
  unfold roundNE
  simp only
  split_ifs with a b c
  · linarith
  · push_cast; linarith
  · linarith
  · push_cast; linarith

theorem roundNE_ge (m : ℚ) : m - 1 / 2 ≤ (roundNE m : ℚ) := by
  have h1 := Int.floor_le m
  have h2 := Int.lt_floor_add_one m
  unfold roundNE
  simp only
  split_ifs with a b c
  · linarith
  · push_cast; linarith
  · linarith
  · push_cast; linarith

theorem roundNE_eq (m : ℚ) (k : ℤ) (h1 : (k : ℚ) - 1 / 2 < m) (h2 : m < (k : ℚ) + 1 / 2) :
    roundNE m = k := by
  have a := roundNE_le m
  have b := roundNE_ge m
  have c : ((roundNE m : ℤ) : ℚ) < ((k + 1 : ℤ) : ℚ) := by push_cast; linarith
  have d : ((k - 1 : ℤ) : ℚ) < ((roundNE m : ℤ) : ℚ) := by push_cast; linarith
  have c2 := Int.cast_lt.1 c
  have d2 := Int.cast_lt.1 d
  omega

theorem roundNE_nonneg (m : ℚ) (h : 0 ≤ m) : 0 ≤ roundNE m := by
  have b := roundNE_ge m
  have d : ((-1 : ℤ) : ℚ) < ((roundNE m : ℤ) : ℚ) := by push_cast; linarith
  have d2 := Int.cast_lt.1 d
  omega

theorem ilog2_spec (a : ℚ) (ha : 0 < a) :
    (2 : ℚ) ^ ilog2 a ≤ a ∧ a < (2 : ℚ) ^ (ilog2 a + 1) := by
  have hnum : 0 < a.num := Rat.num_pos.2 ha
  have hN : ((a.num.natAbs : ℕ) : ℚ) = (a.num : ℚ) := by
    have h : ((a.num.natAbs : ℕ) : ℤ) = a.num := Int.natAbs_of_nonneg hnum.le
    calc ((a.num.natAbs : ℕ) : ℚ) = (((a.num.natAbs : ℕ) : ℤ) : ℚ) := (Int.cast_natCast _).symm
      _ = (a.num : ℚ) := by rw [h]
  have hN0 : a.num.natAbs ≠ 0 := by
    intro h; rw [Int.natAbs_eq_zero] at h; omega
  have hD0 : a.den ≠ 0 := a.den_nz
  have ha_eq : ((a.num.natAbs : ℕ) : ℚ) / (a.den : ℚ) = a := by
    rw [hN]; exact Rat.num_div_den a
  have n1 : ((2 : ℚ) ^ (Nat.log2 a.num.natAbs)) ≤ (a.num.natAbs : ℚ) := by
    exact_mod_cast Nat.log2_self_le hN0
  have n2 : (a.num.natAbs : ℚ) < ((2 : ℚ) ^ (Nat.log2 a.num.natAbs + 1)) := by
    exact_mod_cast (Nat.lt_log2_self : a.num.natAbs < 2 ^ (Nat.log2 a.num.natAbs + 1))
  have d1 : ((2 : ℚ) ^ (Nat.log2 a.den)) ≤ (a.den : ℚ) := by
    exact_mod_cast Nat.log2_self_le hD0
  have d2 : (a.den : ℚ) < ((2 : ℚ) ^ (Nat.log2 a.den + 1)) := by
    exact_mod_cast (Nat.lt_log2_self : a.den < 2 ^ (Nat.log2 a.den + 1))
  have hDpos : (0 : ℚ) < (a.den : ℚ) := by exact_mod_cast Nat.pos_of_ne_zero hD0
  have two0 : (2 : ℚ) ≠ 0 := by norm_num
  have p1 : (0 : ℚ) < (2 : ℚ) ^ (Nat.log2 a.den) := by positivity
  have p2 : (0 : ℚ) < (2 : ℚ) ^ (Nat.log2 a.num.natAbs) := by positivity
  have lo : (2 : ℚ) ^ (((Nat.log2 a.num.natAbs : ℕ) : ℤ) - ((Nat.log2 a.den : ℕ) : ℤ) - 1) ≤ a := by
    have e : (2 : ℚ) ^ (((Nat.log2 a.num.natAbs : ℕ) : ℤ) - ((Nat.log2 a.den : ℕ) : ℤ) - 1)
        = (2 : ℚ) ^ (Nat.log2 a.num.natAbs) / (2 : ℚ) ^ (Nat.log2 a.den + 1) := by
      rw [show (((Nat.log2 a.num.natAbs : ℕ) : ℤ) - ((Nat.log2 a.den : ℕ) : ℤ) - 1)
          = ((Nat.log2 a.num.natAbs : ℕ) : ℤ) - ((Nat.log2 a.den + 1 : ℕ) : ℤ) by push_cast; ring,
        zpow_sub₀ two0, zpow_natCast, zpow_natCast]
    rw [e]
    exact le_of_le_of_eq (div_le_div₀ (Nat.cast_nonneg _) n1 hDpos d2.le) ha_eq
  have hi : a < (2 : ℚ) ^ (((Nat.log2 a.num.natAbs : ℕ) : ℤ) - ((Nat.log2 a.den : ℕ) : ℤ) + 1) := by
    have e : (2 : ℚ) ^ (((Nat.log2 a.num.natAbs : ℕ) : ℤ) - ((Nat.log2 a.den : ℕ) : ℤ) + 1)
        = (2 : ℚ) ^ (Nat.log2 a.num.natAbs + 1) / (2 : ℚ) ^ (Nat.log2 a.den) := by
      rw [show (((Nat.log2 a.num.natAbs : ℕ) : ℤ) - ((Nat.log2 a.den : ℕ) : ℤ) + 1)
          = ((Nat.log2 a.num.natAbs + 1 : ℕ) : ℤ) - ((Nat.log2 a.den : ℕ) : ℤ) by push_cast; ring,
        zpow_sub₀ two0, zpow_natCast, zpow_natCast]
    rw [e]
    exact lt_of_eq_of_lt ha_eq.symm (div_lt_div₀ n2 d1 (by positivity) p1)
  unfold ilog2
  simp only
  split_ifs with h
  · exact ⟨h, hi⟩
  · refine ⟨lo, ?_⟩
    rw [sub_add_cancel]
    exact lt_of_not_le h

theorem ilog2_eq (a : ℚ) (e : ℤ) (ha : 0 < a) (h1 : (2 : ℚ) ^ e ≤ a) (h2 : a < (2 : ℚ) ^ (e + 1)) :
    ilog2 a = e := by
  obtain ⟨s1, s2⟩ := ilog2_spec a ha
  have one2 : (1 : ℚ) < 2 := by norm_num
  have a1 : e < ilog2 a + 1 := (zpow_lt_zpow_iff_right₀ one2).1 (lt_of_le_of_lt h1 s2)
  have a2 : ilog2 a < e + 1 := (zpow_lt_zpow_iff_right₀ one2).1 (lt_of_le_of_lt s1 h2)
  omega

theorem roundTo_eq_of_pos (p : ℕ) (emin : ℤ) (x : ℚ) (e q k : ℤ) (hx : 0 < x)
    (h1 : (2 : ℚ) ^ e ≤ x) (h2 : x < (2 : ℚ) ^ (e + 1)) (hmin : emin ≤ e)
    (hq : e - ((p : ℤ) - 1) = q)
    (k1 : (k : ℚ) - 1 / 2 < x / (2 : ℚ) ^ q) (k2 : x / (2 : ℚ) ^ q < (k : ℚ) + 1 / 2) :
    roundTo p emin x = (k : ℚ) * (2 : ℚ) ^ q := by
  unfold roundTo
  rw [if_neg hx.ne']
  simp only
  rw [abs_of_pos hx, ilog2_eq x e hx h1 h2, max_eq_left hmin, hq, roundNE_eq _ k k1 k2]

theorem roundTo_nonneg (p : ℕ) (emin : ℤ) (x : ℚ) (hx : 0 ≤ x) : 0 ≤ roundTo p emin x := by
  unfold roundTo
  split_ifs with h
  · exact le_rfl
  · simp only
    have : (0 : ℚ) ≤ x / (2 : ℚ) ^ (max (ilog2 |x|) emin - ((p : ℤ) - 1)) :=
      div_nonneg hx (by positivity)
    have r := roundNE_nonneg _ this
    have r2 : (0 : ℚ) ≤ (roundNE (x / (2 : ℚ) ^ (max (ilog2 |x|) emin - ((p : ℤ) - 1))) : ℚ) := by
      exact_mod_cast r
    exact mul_nonneg r2 (by positivity)

theorem roundTo_le_add (p : ℕ) (emin K : ℤ) (x : ℚ) (hx : 0 ≤ x) (hK : x < (2 : ℚ) ^ K)
    (hmin : emin < K) : roundTo p emin x ≤ x + (2 : ℚ) ^ (K - 1 - (p : ℤ)) := by
  unfold roundTo
  split_ifs with h
  · have : (0 : ℚ) < (2 : ℚ) ^ (K - 1 - (p : ℤ)) := by positivity
    linarith
  · simp only
    have hpos : 0 < x := lt_of_le_of_ne hx (Ne.symm h)
    have one2 : (1 : ℚ) < 2 := by norm_num
    obtain ⟨s1, _⟩ := ilog2_spec x hpos
    have e1 : ilog2 x < K := (zpow_lt_zpow_iff_right₀ one2).1 (lt_of_le_of_lt s1 hK)
    rw [abs_of_pos hpos]
    set q := max (ilog2 x) emin - ((p : ℤ) - 1) with hq
    have hqle : q ≤ K - 1 - (p : ℤ) + 1 := by
      have : max (ilog2 x) emin ≤ K - 1 := max_le (by omega) (by omega)
      omega
    have qpos : (0 : ℚ) < (2 : ℚ) ^ q := by positivity
    have r := roundNE_le (x / (2 : ℚ) ^ q)
    have step : (roundNE (x / (2 : ℚ) ^ q) : ℚ) * (2 : ℚ) ^ q ≤ x + (2 : ℚ) ^ q / 2 := by
      have := mul_le_mul_of_nonneg_right r qpos.le
      rw [add_mul, div_mul_cancel₀ _ qpos.ne'] at this
      linarith
    have half : (2 : ℚ) ^ q / 2 ≤ (2 : ℚ) ^ (K - 1 - (p : ℤ)) := by
      have : (2 : ℚ) ^ q ≤ (2 : ℚ) ^ (K - 1 - (p : ℤ) + 1) := zpow_le_zpow_right₀ one2.le hqle
      rw [zpow_add_one₀ (by norm_num : (2 : ℚ) ≠ 0)] at this
      linarith
    linarith

theorem roundTo_zero (p : ℕ) (emin : ℤ) : roundTo p emin 0 = 0 := by
  simp [roundTo]

theorem toDouble_0878 : toDouble 0.0878 = 6326656756530073 / 72057594037927936 := by
  rw [toDouble, roundTo_eq_of_pos 53 (-1022) _ (-4) (-56) 6326656756530073] <;> norm_num

theorem toFloat_0878 :
    toFloat (6326656756530073 / 72057594037927936) = 11784317 / 134217728 := by
  rw [toFloat, roundTo_eq_of_pos 24 (-126) _ (-4) (-27) 11784317] <;> norm_num

theorem toFloat_2048 : toFloat 2048 = 2048 := by
  rw [toFloat, roundTo_eq_of_pos 24 (-126) _ 11 (-12) 8388608] <;> norm_num

theorem toFloat_4095 : toFloat 4095 = 4095 := by
  rw [toFloat, roundTo_eq_of_pos 24 (-126) _ 11 (-12) 16773120] <;> norm_num

theorem fmul_2048_0878 : fmul 2048 (11784317 / 134217728) = 11784317 / 65536 := by
  rw [fmul, toFloat, roundTo_eq_of_pos 24 (-126) _ 7 (-16) 11784317] <;> norm_num

theorem toDouble_088 : toDouble 0.088 = 3170534137668829 / 36028797018963968 := by
  rw [toDouble, roundTo_eq_of_pos 53 (-1022) _ (-4) (-56) 6341068275337658] <;> norm_num

theorem toDouble_4095 : toDouble 4095 = 4095 := by
  rw [toDouble, roundTo_eq_of_pos 53 (-1022) _ 11 (-41) 9005000231485440] <;> norm_num

theorem toDouble_4096 : toDouble 4096 = 4096 := by
  rw [toDouble, roundTo_eq_of_pos 53 (-1022) _ 12 (-40) 4503599627370496] <;> norm_num

theorem dmul_4095_088 :
    dmul 4095 (3170534137668829 / 36028797018963968)
      = 6339520162965749 / 17592186044416 := by
  rw [dmul, toDouble, roundTo_eq_of_pos 53 (-1022) _ 8 (-44) 6339520162965749] <;> norm_num

theorem ddiv_4096 :
    ddiv (6339520162965749 / 17592186044416) 4096
      = 6339520162965749 / 72057594037927936 := by
  rw [ddiv, toDouble, roundTo_eq_of_pos 53 (-1022) _ (-4) (-56) 6339520162965749] <;> norm_num

theorem toFloat_mult_4095 :
    toFloat (6339520162965749 / 72057594037927936) = 2952069 / 33554432 := by
  rw [toFloat, roundTo_eq_of_pos 24 (-126) _ (-4) (-27) 11808276] <;> norm_num

theorem fmul_2048_mult_4095 : fmul 2048 (2952069 / 33554432) = 2952069 / 16384 := by
  rw [fmul, toFloat, roundTo_eq_of_pos 24 (-126) _ 7 (-16) 11808276] <;> norm_num

theorem toFloat_36036 : toFloat (6339520162965749 / 17592186044416) = 2952069 / 8192 := by
  rw [toFloat, roundTo_eq_of_pos 24 (-126) _ 8 (-15) 11808276] <;> norm_num

theorem toDouble_2048 : toDouble 2048 = 2048 := by
  rw [toDouble, roundTo_eq_of_pos 53 (-1022) _ 11 (-41) 4503599627370496] <;> norm_num

theorem dmul_2048_mult_4095 :
    dmul 2048 (6339520162965749 / 72057594037927936)
      = 6339520162965749 / 35184372088832 := by
  rw [dmul, toDouble, roundTo_eq_of_pos 53 (-1022) _ 7 (-45) 6339520162965749] <;> norm_num

/-- The expression `2048 * ((4095*0.088)/4096)` evaluated in `double` arithmetic. -/
theorem double_expr_4095 :
    dmul (toDouble 2048) (ddiv (dmul (toDouble 4095) (toDouble 0.088)) (toDouble 4096))
      = 6339520162965749 / 35184372088832 := by
  rw [toDouble_2048, toDouble_4095, toDouble_088, toDouble_4096, dmul_4095_088, ddiv_4096,
    dmul_2048_mult_4095]

/-- The multiplier `getAngle` computes from the cache `(maxAngle, startPos,
stopPos) = (4095, _, _)`. -/
theorem multiplier_4095 :
    toFloat (ddiv (dmul (toDouble ((4095 : ℕ) : ℚ)) (toDouble 0.088)) (toDouble 4096))
      = 2952069 / 33554432 := by
  rw [Nat.cast_ofNat, toDouble_4095, toDouble_088, toDouble_4096, dmul_4095_088, ddiv_4096,
    toFloat_mult_4095]

/-- The value `getRawAngle` computes from the count `4095`. -/
theorem rawAngle_4095 :
    toFloat (dmul (toDouble (toFloat ((4095 : ℕ) : ℚ))) (toDouble 0.088)) = 2952069 / 8192 := by
  rw [Nat.cast_ofNat, toFloat_4095, toDouble_4095, toDouble_088, dmul_4095_088, toFloat_36036]

theorem rawAngle_nonneg (c : ℕ) :
    0 ≤ toFloat (dmul (toDouble (toFloat (c : ℚ))) (toDouble 0.088)) := by
  have h1 : (0 : ℚ) ≤ toFloat (c : ℚ) := roundTo_nonneg _ _ _ (Nat.cast_nonneg c)
  have h2 : (0 : ℚ) ≤ toDouble (toFloat (c : ℚ)) := roundTo_nonneg _ _ _ h1
  have h3 : (0 : ℚ) ≤ toDouble 0.088 := roundTo_nonneg _ _ _ (by norm_num)
  exact roundTo_nonneg _ _ _ (roundTo_nonneg _ _ _ (mul_nonneg h2 h3))

theorem toFloat_le_of_lt_4096 (x : ℚ) (h0 : 0 ≤ x) (hx : x < 4096) :
    toFloat x ≤ x + 1 / 8192 := by
  have h := roundTo_le_add 24 (-126) 12 x h0 (by norm_num; exact hx) (by norm_num)
  norm_num at h
  exact h

theorem toDouble_le_of_lt_8192 (x : ℚ) (h0 : 0 ≤ x) (hx : x < 8192) :
    toDouble x ≤ x + 1 / 2199023255552 := by
  have h := roundTo_le_add 53 (-1022) 13 x h0 (by norm_num; exact hx) (by norm_num)
  norm_num at h
  exact h

theorem toDouble_le_of_lt_512 (x : ℚ) (h0 : 0 ≤ x) (hx : x < 512) :
    toDouble x ≤ x + 1 / 35184372088832 := by
  have h := roundTo_le_add 53 (-1022) 9 x h0 (by norm_num; exact hx) (by norm_num)
  norm_num at h
  exact h

theorem toFloat_le_of_lt_512 (x : ℚ) (h0 : 0 ≤ x) (hx : x < 512) :
    toFloat x ≤ x + 1 / 65536 := by
  have h := roundTo_le_add 24 (-126) 9 x h0 (by norm_num; exact hx) (by norm_num)
  norm_num at h
  exact h

theorem rawAngle_le (c : ℕ) (hc : c ≤ 4095) :
    toFloat (dmul (toDouble (toFloat (c : ℚ))) (toDouble 0.088)) ≤ 4095 * 0.088 := by
  rcases Nat.lt_or_ge c 4095 with hlt | hge
  · have hcq : (c : ℚ) ≤ 4094 := by exact_mod_cast Nat.le_of_lt_succ hlt
    have c0 : (0 : ℚ) ≤ (c : ℚ) := Nat.cast_nonneg c
    rw [toDouble_088, dmul]
    have t0 : (0 : ℚ) ≤ toFloat (c : ℚ) := roundTo_nonneg _ _ _ c0
    have t1 := toFloat_le_of_lt_4096 (c : ℚ) c0 (by linarith)
    generalize toFloat (c : ℚ) = t at t0 t1 ⊢
    have u0 : (0 : ℚ) ≤ toDouble t := roundTo_nonneg _ _ _ t0
    have u1 := toDouble_le_of_lt_8192 t t0 (by linarith)
    generalize toDouble t = u at u0 u1 ⊢
    have x0 : (0 : ℚ) ≤ u * (3170534137668829 / 36028797018963968) :=
      mul_nonneg u0 (by norm_num)
    have y0 : (0 : ℚ) ≤ toDouble (u * (3170534137668829 / 36028797018963968)) :=
      roundTo_nonneg _ _ _ x0
    have y1 := toDouble_le_of_lt_512 (u * (3170534137668829 / 36028797018963968)) x0
      (by linarith)
    generalize toDouble (u * (3170534137668829 / 36028797018963968)) = y at y0 y1 ⊢
    have v1 := toFloat_le_of_lt_512 y y0 (by linarith)
    norm_num
    linarith
  · have h : c = 4095 := le_antisymm hc hge
    subst h
    rw [rawAngle_4095]
    norm_num

theorem getAngle_fst (this : as5600) (bus : Bus) :
    (this.getAngle bus).1
      = fmul (toFloat ((this.read12bit ANGLE_ADR bus).1 : ℚ)) this.getAngle_multiplier := rfl

theorem getRawAngle_fst (this : as5600) (bus : Bus) :
    (this.getRawAngle bus).1
      = toFloat (dmul (toDouble (toFloat ((this.read12bit RAW_ANGLE_ADR bus).1 : ℚ)))
          (toDouble 0.088)) := rfl

/-- With `maxAngle = 0` the cascade of `getAngle` is a four-way case split on
whether `startPos` and `stopPos` are zero. -/
theorem getAngle_multiplier_of_maxAngle_zero (this : as5600) (hmax : this.maxAngle = 0) :
    this.getAngle_multiplier
      = if this.startPos = 0 then
          (if this.stopPos = 0 then toFloat (toDouble 0.0878)
           else toFloat (ddiv (dmul (toDouble this.stopPos) (toDouble 0.0878)) (toDouble 4096)))
        else
          (if this.stopPos = 0 then
            toFloat (ddiv (dsub (dmul (toDouble 360) (toDouble 0.0878))
              (dmul (toDouble this.startPos) (toDouble 0.0878))) (toDouble 4096))
           else
            toFloat (ddiv (dsub (dmul (toDouble this.stopPos) (toDouble 0.0878))
              (dmul (toDouble this.startPos) (toDouble 0.0878))) (toDouble 4096))) := by
  unfold as5600.getAngle_multiplier
  simp only [hmax, gt_iff_lt, lt_self_iff_false, if_false, Nat.pos_iff_ne_zero]
  by_cases h1 : this.startPos = 0 <;> by_cases h2 : this.stopPos = 0 <;> simp [h1, h2]

theorem getAngle_multiplier_of_maxAngle_pos (this : as5600) (hmax : 0 < this.maxAngle) :
    this.getAngle_multiplier
      = toFloat (ddiv (dmul (toDouble this.maxAngle) (toDouble 0.088)) (toDouble 4096)) := by
  unfold as5600.getAngle_multiplier
  simp only [gt_iff_lt, hmax, if_true, ite_self]

theorem read12bit_eq (this : as5600) (address : Nat) (bus : Bus) :
    this.read12bit address bus
      = (bus.next12 (this.address <<< 1) (address % 256), this,
         bus.after [Transfer.memRead this.i2c ((this.address <<< 1) % 65536)
           (address % 256) 1 2 1000]) := by
  refine Prod.ext (read12bit_fst this address bus) (Prod.ext rfl ?_)
  have h : address % 256 % 65536 = address % 256 := by omega
  simp [as5600.read12bit, HAL_I2C_Mem_Read, I2C_MEMADD_SIZE_8BIT, h, Bus.after]

theorem next12_le (bus : Bus) (dev mem : Nat) : bus.next12 dev mem ≤ 4095 := by
  have := rx_lt bus dev mem 1
  unfold Bus.next12
  omega

theorem after_after (bus : Bus) (ts us : List Transfer) :
    (bus.after ts).after us = bus.after (ts ++ us) := by
  simp [Bus.after]

theorem shl1_mod (a : Nat) : ((a % 256) <<< 1) % 65536 = (a % 256) <<< 1 := by
  rw [Nat.shiftLeft_eq]
  omega

/-- Both constructors: the state they leave, written out. -/
theorem as5600_i2c_address_eq (mem : as5600) (_i2c _address : Nat) (bus : Bus) :
    as5600.as5600_i2c_address mem _i2c _address bus
      = (as5600.mk _i2c (_address % 256)
          (bus.next12 ((_address % 256) <<< 1) ZPOS_ADR)
          ((bus.after [Transfer.memRead _i2c ((_address % 256) <<< 1) ZPOS_ADR 1 2 1000]).next12
            ((_address % 256) <<< 1) MPOS_ADR)
          ((bus.after [Transfer.memRead _i2c ((_address % 256) <<< 1) ZPOS_ADR 1 2 1000,
              Transfer.memRead _i2c ((_address % 256) <<< 1) MPOS_ADR 1 2 1000]).next12
            ((_address % 256) <<< 1) MANG_ADR),
         bus.after [Transfer.memRead _i2c ((_address % 256) <<< 1) ZPOS_ADR 1 2 1000,
           Transfer.memRead _i2c ((_address % 256) <<< 1) MPOS_ADR 1 2 1000,
           Transfer.memRead _i2c ((_address % 256) <<< 1) MANG_ADR 1 2 1000]) := by
  simp only [as5600.as5600_i2c_address, as5600.getStartPos, as5600.getStopPos,
    as5600.getMaxAngle, read12bit_eq, after_after, shl1_mod, List.cons_append, List.nil_append]
  rfl

theorem as5600_i2c_eq (mem : as5600) (_i2c : Nat) (bus : Bus) :
    as5600.as5600_i2c mem _i2c bus = as5600.as5600_i2c_address mem _i2c 0x36 bus := rfl

theorem run_preserves_cache (op : Op) (s : as5600 × Bus) (h : CacheInRange s.1) :
    CacheInRange (op.run s).1 := by
  obtain ⟨h1, h2, h3⟩ := h
  cases op with
  | setAngleAsStart => exact ⟨h1, h2, h3⟩
  | setAngleAsStop => exact ⟨h1, h2, h3⟩
  | readConfig => exact ⟨h1, h2, h3⟩
  | writeConfig m l => exact ⟨h1, h2, h3⟩
  | checkMagnet =>
    simp only [Op.run, as5600.checkMagnet]
    split_ifs <;> exact ⟨h1, h2, h3⟩
  | getStartPos => exact ⟨read12bit_le _ _ _, h2, h3⟩
  | getStopPos => exact ⟨h1, read12bit_le _ _ _, h3⟩
  | getMaxAngle => exact ⟨h1, h2, read12bit_le _ _ _⟩
  | getAngle => exact ⟨h1, h2, h3⟩
  | getRawAngle => exact ⟨h1, h2, h3⟩

theorem runOps_preserves_cache (ops : List Op) (s : as5600 × Bus) (h : CacheInRange s.1) :
    CacheInRange (runOps ops s).1 := by
  induction ops generalizing s with
  | nil => exact h
  | cons op ops ih => exact ih (op.run s) (run_preserves_cache op s h)

theorem constructor_cache (mem : as5600) (_i2c _address : Nat) (bus : Bus) :
    CacheInRange (as5600.as5600_i2c_address mem _i2c _address bus).1 := by
  rw [as5600_i2c_address_eq]
  exact ⟨next12_le _ _ _, next12_le _ _ _, next12_le _ _ _⟩

theorem checkMagnet_snd (this : as5600) (bus : Bus) : (this.checkMagnet bus).2.1 = this := by
  simp only [as5600.checkMagnet]
  split_ifs <;> rfl

/-! ## Raw register access -/

/-- C3: whatever bytes `b0`, `b1` the 2-byte bus read delivers, and for every
register address, `read12bit` returns `((b0 & 0x0f) << 8) | b1`, which is
`(b0 mod 16) * 256 + b1` and lies in `[0, 4095]`. -/
theorem read12bit_spec (this : as5600) (address : Nat) (bus : Bus) (b0 b1 : Nat)
    (h : bus.nextRead (this.address <<< 1) (address % 256) 2 = [b0, b1]) :
    (this.read12bit address bus).1 = (((b0 &&& 0x0f) <<< 8) ||| b1)
    ∧ (this.read12bit address bus).1 = (b0 % 16) * 256 + b1
    ∧ 0 ≤ (this.read12bit address bus).1 ∧ (this.read12bit address bus).1 ≤ 4095 := by
  have hb := nextRead_two_lt h
  have hv : (this.read12bit address bus).1 = (((b0 &&& 0x0f) <<< 8) ||| b1) % 65536 := by
    simp only [as5600.read12bit, HAL_I2C_Mem_Read, Nat.reduceMod, h,
      List.getD_cons_zero, List.getD_cons_succ]
  have hc := combine12 b0 b1 hb.2
  refine ⟨?_, ?_, Nat.zero_le _, ?_⟩
  · rw [hv, hc, combine12_raw b0 b1 hb.2]
  · rw [hv, hc]
  · rw [hv, hc]; omega

/-- Instance of `read12bit_spec`: the bytes `0xff, 0xff` read from the angle
register give `4095`; the top four bits of the first byte are dropped. -/
theorem read12bit_spec_witness :
    (mockBus (fun _ => [0xff, 0xff])).nextRead
        ((as5600.mk 7 0x36 0 0 0).address <<< 1) (ANGLE_ADR % 256) 2 = [0xff, 0xff]
    ∧ ((as5600.mk 7 0x36 0 0 0).read12bit ANGLE_ADR (mockBus (fun _ => [0xff, 0xff]))).1 = 4095 :=
  ⟨by decide,
   (read12bit_spec (as5600.mk 7 0x36 0 0 0) ANGLE_ADR (mockBus (fun _ => [0xff, 0xff]))
      0xff 0xff (by decide)).2.1⟩

/-! ## Magnet diagnostic -/

/-- C4: for the status byte `s` read from the status register `0x0b`,
`checkMagnet` returns `0` when bit 5 (`0x20`) of `s` is set, whatever bit 4 is;
otherwise `1` when bit 4 (`0x10`) is set; otherwise `2`.  The byte lies in
`[0, 255]` and the result is one of `0`, `1`, `2`. -/
theorem checkMagnet_spec (this : as5600) (bus : Bus) (s : Nat)
    (h : bus.nextRead (this.address <<< 1) STATUS_ADR 1 = [s]) :
    s ≤ 255
    ∧ (this.checkMagnet bus).1
        = (if s &&& 0x20 ≠ 0 then 0 else if s &&& 0x10 ≠ 0 then 1 else 2)
    ∧ (s.testBit 5 = true → (this.checkMagnet bus).1 = 0)
    ∧ (s.testBit 5 = false → s.testBit 4 = true → (this.checkMagnet bus).1 = 1)
    ∧ (s.testBit 5 = false → s.testBit 4 = false → (this.checkMagnet bus).1 = 2)
    ∧ ((this.checkMagnet bus).1 = 0 ∨ (this.checkMagnet bus).1 = 1
        ∨ (this.checkMagnet bus).1 = 2) := by
  have hs := nextRead_one_lt h
  have hrx : bus.rx (this.address <<< 1) STATUS_ADR 0 = s := by
    rw [nextRead_one] at h
    simpa using h
  have hv := checkMagnet_fst this bus
  rw [hrx] at hv
  refine ⟨by omega, hv, ?_, ?_, ?_, ?_⟩
  · intro h5
    rw [hv, if_pos ((and_0x20_ne_zero s).2 h5)]
  · intro h5 h4
    have n5 : ¬ (s &&& 0x20 ≠ 0) := fun c => by
      rw [(and_0x20_ne_zero s).1 c] at h5; cases h5
    rw [hv, if_neg n5, if_pos ((and_0x10_ne_zero s).2 h4)]
  · intro h5 h4
    have n5 : ¬ (s &&& 0x20 ≠ 0) := fun c => by
      rw [(and_0x20_ne_zero s).1 c] at h5; cases h5
    have n4 : ¬ (s &&& 0x10 ≠ 0) := fun c => by
      rw [(and_0x10_ne_zero s).1 c] at h4; cases h4
    rw [hv, if_neg n5, if_neg n4]
  · rw [hv]
    split_ifs <;> simp

/-- Instances of `checkMagnet_spec`: the status bytes `0x20`, `0x10`, `0x00`
and `0x30` are classified `0`, `1`, `2` and `0`. -/
theorem checkMagnet_spec_witness :
    ((as5600.mk 7 0x36 0 0 0).checkMagnet (mockBus (fun _ => [0x20]))).1 = 0
    ∧ ((as5600.mk 7 0x36 0 0 0).checkMagnet (mockBus (fun _ => [0x10]))).1 = 1
    ∧ ((as5600.mk 7 0x36 0 0 0).checkMagnet (mockBus (fun _ => [0x00]))).1 = 2
    ∧ ((as5600.mk 7 0x36 0 0 0).checkMagnet (mockBus (fun _ => [0x30]))).1 = 0 :=
  ⟨(checkMagnet_spec (as5600.mk 7 0x36 0 0 0) (mockBus (fun _ => [0x20])) 0x20
      (by decide)).2.2.1 (by decide),
   (checkMagnet_spec (as5600.mk 7 0x36 0 0 0) (mockBus (fun _ => [0x10])) 0x10
      (by decide)).2.2.2.1 (by decide) (by decide),
   (checkMagnet_spec (as5600.mk 7 0x36 0 0 0) (mockBus (fun _ => [0x00])) 0x00
      (by decide)).2.2.2.2.1 (by decide) (by decide),
   (checkMagnet_spec (as5600.mk 7 0x36 0 0 0) (mockBus (fun _ => [0x30])) 0x30
      (by decide)).2.2.1 (by decide)⟩

/-! ## Angle computation -/

/-- C1 (as amended): with cached `maxAngle = 0`, `getAngle` returns the `float`
product of the 12-bit `count` read from the angle register and `multiplier`,
where `multiplier` is the `float` nearest to the `double` value of `0.0878`
when `startPos = 0` and `stopPos = 0`; of
`((360*0.0878) - (startPos*0.0878))/4096` when `startPos > 0` and `stopPos = 0`;
of `(stopPos*0.0878)/4096` when `startPos = 0` and `stopPos > 0`; and of
`((stopPos*0.0878) - (startPos*0.0878))/4096` when both are positive, each
expression evaluated in `double` arithmetic.  One of the four cases always
applies, so the initial value `0` of `multiplier` is never the one used. -/
theorem getAngle_maxAngle_zero (this : as5600) (bus : Bus) (count : Nat)
    (hmax : this.maxAngle = 0) (hcount : (this.read12bit ANGLE_ADR bus).1 = count) :
    count ≤ 4095
    ∧ (this.getAngle bus).1 = fmul (toFloat (count : ℚ)) this.getAngle_multiplier
    ∧ (this.startPos = 0 ∧ this.stopPos = 0 →
        this.getAngle_multiplier = toFloat (toDouble 0.0878))
    ∧ (this.startPos > 0 ∧ this.stopPos = 0 →
        this.getAngle_multiplier
          = toFloat (ddiv (dsub (dmul (toDouble 360) (toDouble 0.0878))
              (dmul (toDouble this.startPos) (toDouble 0.0878))) (toDouble 4096)))
    ∧ (this.startPos = 0 ∧ this.stopPos > 0 →
        this.getAngle_multiplier
          = toFloat (ddiv (dmul (toDouble this.stopPos) (toDouble 0.0878)) (toDouble 4096)))
    ∧ (this.startPos > 0 ∧ this.stopPos > 0 →
        this.getAngle_multiplier
          = toFloat (ddiv (dsub (dmul (toDouble this.stopPos) (toDouble 0.0878))
              (dmul (toDouble this.startPos) (toDouble 0.0878))) (toDouble 4096)))
    ∧ ((this.startPos = 0 ∧ this.stopPos = 0) ∨ (this.startPos > 0 ∧ this.stopPos = 0)
        ∨ (this.startPos = 0 ∧ this.stopPos > 0) ∨ (this.startPos > 0 ∧ this.stopPos > 0)) := by
  have hm := getAngle_multiplier_of_maxAngle_zero this hmax
  refine ⟨hcount ▸ read12bit_le this ANGLE_ADR bus, ?_, ?_, ?_, ?_, ?_, ?_⟩
  · rw [getAngle_fst, hcount]
  · rintro ⟨h1, h2⟩
    rw [hm, if_pos h1, if_pos h2]
  · rintro ⟨h1, h2⟩
    rw [hm, if_neg (Nat.pos_iff_ne_zero.1 h1), if_pos h2]
  · rintro ⟨h1, h2⟩
    rw [hm, if_pos h1, if_neg (Nat.pos_iff_ne_zero.1 h2)]
  · rintro ⟨h1, h2⟩
    rw [hm, if_neg (Nat.pos_iff_ne_zero.1 h1), if_neg (Nat.pos_iff_ne_zero.1 h2)]
  · omega

/-- Instances of `getAngle_maxAngle_zero`: the cache `(maxAngle, startPos,
stopPos) = (0, 0, 0)` gives the multiplier `toFloat (toDouble 0.0878)`, and
`(0, 1000, 0)` gives the `float` nearest to the `double` value of
`((360*0.0878) - (1000*0.0878))/4096`; with the count `2048` on the bus the
first cache yields the `float` product of `2048` and its multiplier. -/
theorem getAngle_maxAngle_zero_witness :
    (as5600.mk 7 0x36 0 0 0).maxAngle = 0
    ∧ ((as5600.mk 7 0x36 0 0 0).read12bit ANGLE_ADR (mockBus (fun _ => [0x08, 0x00]))).1 = 2048
    ∧ (as5600.mk 7 0x36 0 0 0).getAngle_multiplier = toFloat (toDouble 0.0878)
    ∧ (as5600.mk 7 0x36 1000 0 0).getAngle_multiplier
        = toFloat (ddiv (dsub (dmul (toDouble 360) (toDouble 0.0878))
            (dmul (toDouble ((1000 : Nat) : ℚ)) (toDouble 0.0878))) (toDouble 4096))
    ∧ ((as5600.mk 7 0x36 0 0 0).getAngle (mockBus (fun _ => [0x08, 0x00]))).1
        = fmul (toFloat ((2048 : Nat) : ℚ)) (as5600.mk 7 0x36 0 0 0).getAngle_multiplier :=
  ⟨rfl, by decide,
   (getAngle_maxAngle_zero (as5600.mk 7 0x36 0 0 0) (mockBus (fun _ => [0x08, 0x00])) 2048
      rfl (by decide)).2.2.1 ⟨rfl, rfl⟩,
   (getAngle_maxAngle_zero (as5600.mk 7 0x36 1000 0 0) (mockBus (fun _ => [0x08, 0x00])) 2048
      rfl (by decide)).2.2.2.1 ⟨by decide, rfl⟩,
   (getAngle_maxAngle_zero (as5600.mk 7 0x36 0 0 0) (mockBus (fun _ => [0x08, 0x00])) 2048
      rfl (by decide)).2.1⟩

/-- C1, the claim as first stated fails: with the cache `(maxAngle, startPos,
stopPos) = (0, 0, 0)` the multiplier is the `float` `11784317 / 2^27`, not the
rational `0.0878`, and for the count `2048` `getAngle` returns
`11784317 / 65536`, not `2048 * 0.0878`. -/
theorem getAngle_maxAngle_zero_not_exact :
    (as5600.mk 7 0x36 0 0 0).getAngle_multiplier = 11784317 / 134217728
    ∧ (as5600.mk 7 0x36 0 0 0).getAngle_multiplier ≠ 0.0878
    ∧ ((as5600.mk 7 0x36 0 0 0).read12bit ANGLE_ADR (mockBus (fun _ => [0x08, 0x00]))).1 = 2048
    ∧ ((as5600.mk 7 0x36 0 0 0).getAngle (mockBus (fun _ => [0x08, 0x00]))).1
        = 11784317 / 65536
    ∧ ((as5600.mk 7 0x36 0 0 0).getAngle (mockBus (fun _ => [0x08, 0x00]))).1
        ≠ ((2048 : Nat) : ℚ) * 0.0878 := by
  have hm : (as5600.mk 7 0x36 0 0 0).getAngle_multiplier = 11784317 / 134217728 := by
    rw [getAngle_multiplier_of_maxAngle_zero _ rfl, if_pos rfl, if_pos rfl, toDouble_0878,
      toFloat_0878]
  have hr : ((as5600.mk 7 0x36 0 0 0).read12bit ANGLE_ADR
      (mockBus (fun _ => [0x08, 0x00]))).1 = 2048 := by decide
  have hv : ((as5600.mk 7 0x36 0 0 0).getAngle (mockBus (fun _ => [0x08, 0x00]))).1
      = 11784317 / 65536 := by
    rw [getAngle_fst, hr, hm, Nat.cast_ofNat, toFloat_2048, fmul_2048_0878]
  refine ⟨hm, ?_, hr, hv, ?_⟩
  · rw [hm]; norm_num
  · rw [hv]; norm_num

/-- C2 (as amended): with cached `maxAngle > 0`, `getAngle` returns the `float`
product of the count read from the angle register and the `float` nearest to
the `double` value of `(maxAngle * 0.088) / 4096`, and the value is the same for
any two cached start positions `s1`, `s2` and any cached stop positions `p1`,
`p2`. -/
theorem getAngle_maxAngle_pos (this : as5600) (bus : Bus) (s1 s2 p1 p2 : Nat)
    (hmax : 0 < this.maxAngle) :
    (this.getAngle bus).1
      = fmul (toFloat ((this.read12bit ANGLE_ADR bus).1 : ℚ))
          (toFloat (ddiv (dmul (toDouble this.maxAngle) (toDouble 0.088)) (toDouble 4096)))
    ∧ (({ this with startPos := s1, stopPos := p1 } : as5600).getAngle bus).1
      = (({ this with startPos := s2, stopPos := p2 } : as5600).getAngle bus).1
    ∧ (({ this with startPos := s1, stopPos := p1 } : as5600).getAngle bus).1
      = fmul (toFloat ((this.read12bit ANGLE_ADR bus).1 : ℚ))
          (toFloat (ddiv (dmul (toDouble this.maxAngle) (toDouble 0.088)) (toDouble 4096))) := by
  have e1 := getAngle_multiplier_of_maxAngle_pos this hmax
  have e2 := getAngle_multiplier_of_maxAngle_pos
    ({ this with startPos := s1, stopPos := p1 } : as5600) hmax
  have e3 := getAngle_multiplier_of_maxAngle_pos
    ({ this with startPos := s2, stopPos := p2 } : as5600) hmax
  have r2 : (({ this with startPos := s1, stopPos := p1 } : as5600).read12bit ANGLE_ADR bus).1
      = (this.read12bit ANGLE_ADR bus).1 := rfl
  have r3 : (({ this with startPos := s2, stopPos := p2 } : as5600).read12bit ANGLE_ADR bus).1
      = (this.read12bit ANGLE_ADR bus).1 := rfl
  refine ⟨?_, ?_, ?_⟩
  · rw [getAngle_fst, e1]
  · rw [getAngle_fst, getAngle_fst, e2, e3, r2, r3]
  · rw [getAngle_fst, e2, r2]

/-- Instance of `getAngle_maxAngle_pos`: with `maxAngle = 4095` the caches with
`(startPos, stopPos) = (0, 0)` and `(1000, 3000)` give the same angle. -/
theorem getAngle_maxAngle_pos_witness :
    0 < (as5600.mk 7 0x36 0 0 4095).maxAngle
    ∧ ((as5600.mk 7 0x36 0 0 4095).getAngle (mockBus (fun _ => [0x08, 0x00]))).1
      = ((as5600.mk 7 0x36 1000 3000 4095).getAngle (mockBus (fun _ => [0x08, 0x00]))).1 :=
  ⟨by decide,
   (getAngle_maxAngle_pos (as5600.mk 7 0x36 0 0 4095) (mockBus (fun _ => [0x08, 0x00]))
      0 1000 0 3000 (by decide)).2.1⟩

/-- C2, the claim as first stated fails: with `maxAngle = 4095` and the count
`2048`, `getAngle` returns the `float` `2952069 / 16384`, which is neither the
rational `2048 * ((4095 * 0.088) / 4096)` nor that expression evaluated in
`double` arithmetic. -/
theorem getAngle_maxAngle_pos_not_exact :
    0 < (as5600.mk 7 0x36 0 0 4095).maxAngle
    ∧ ((as5600.mk 7 0x36 0 0 4095).read12bit ANGLE_ADR (mockBus (fun _ => [0x08, 0x00]))).1
        = 2048
    ∧ ((as5600.mk 7 0x36 0 0 4095).getAngle (mockBus (fun _ => [0x08, 0x00]))).1
        = 2952069 / 16384
    ∧ ((as5600.mk 7 0x36 0 0 4095).getAngle (mockBus (fun _ => [0x08, 0x00]))).1
        ≠ ((2048 : Nat) : ℚ) * ((((4095 : Nat) : ℚ) * 0.088) / 4096)
    ∧ ((as5600.mk 7 0x36 0 0 4095).getAngle (mockBus (fun _ => [0x08, 0x00]))).1
        ≠ dmul (toDouble 2048)
            (ddiv (dmul (toDouble 4095) (toDouble 0.088)) (toDouble 4096)) := by
  have hr : ((as5600.mk 7 0x36 0 0 4095).read12bit ANGLE_ADR
      (mockBus (fun _ => [0x08, 0x00]))).1 = 2048 := by decide
  have hm : (as5600.mk 7 0x36 0 0 4095).getAngle_multiplier = 2952069 / 33554432 := by
    rw [getAngle_multiplier_of_maxAngle_pos _ (show 0 < 4095 by decide)]
    exact multiplier_4095
  have hv : ((as5600.mk 7 0x36 0 0 4095).getAngle (mockBus (fun _ => [0x08, 0x00]))).1
      = 2952069 / 16384 := by
    rw [getAngle_fst, hr, hm, Nat.cast_ofNat, toFloat_2048, fmul_2048_mult_4095]
  refine ⟨by decide, hr, hv, ?_, ?_⟩
  · rw [hv]; norm_num
  · rw [hv, double_expr_4095]; norm_num

/-- C10 (as amended): `getRawAngle` returns, for the 12-bit count read from the
raw-angle register `0x0c`, the `float` nearest to the `double` product of the
count and `0.088`, whatever the cached `startPos`, `stopPos` and `maxAngle`
are; the result lies between `0` and `4095 * 0.088`. -/
theorem getRawAngle_calibration_independent (this : as5600) (bus : Bus) (s p m : Nat) :
    (this.getRawAngle bus).1
      = toFloat (dmul (toDouble (toFloat ((this.read12bit RAW_ANGLE_ADR bus).1 : ℚ)))
          (toDouble 0.088))
    ∧ (({ this with startPos := s, stopPos := p, maxAngle := m } : as5600).getRawAngle bus).1
        = (this.getRawAngle bus).1
    ∧ (this.read12bit RAW_ANGLE_ADR bus).1 ≤ 4095
    ∧ (this.getRawAngle bus).2.2.trace
        = bus.trace ++ [Transfer.memRead this.i2c ((this.address <<< 1) % 65536) 0x0c 1 2 1000]
    ∧ 0 ≤ (this.getRawAngle bus).1
    ∧ (this.getRawAngle bus).1 ≤ 4095 * 0.088 := by
  have hle := read12bit_le this RAW_ANGLE_ADR bus
  refine ⟨rfl, rfl, hle, ?_, ?_, ?_⟩
  · exact read12bit_trace this RAW_ANGLE_ADR bus
  · rw [getRawAngle_fst]
    exact rawAngle_nonneg _
  · rw [getRawAngle_fst]
    exact rawAngle_le _ hle

/-- C10, the claim as first stated fails: for the count `4095` `getRawAngle`
returns the `float` `2952069 / 8192`, not the rational `4095 * 0.088`. -/
theorem getRawAngle_not_exact :
    ((as5600.mk 7 0x36 0 0 0).read12bit RAW_ANGLE_ADR (mockBus (fun _ => [0x0f, 0xff]))).1
        = 4095
    ∧ ((as5600.mk 7 0x36 0 0 0).getRawAngle (mockBus (fun _ => [0x0f, 0xff]))).1
        = 2952069 / 8192
    ∧ ((as5600.mk 7 0x36 0 0 0).getRawAngle (mockBus (fun _ => [0x0f, 0xff]))).1
        ≠ ((4095 : Nat) : ℚ) * 0.088 := by
  have hr : ((as5600.mk 7 0x36 0 0 0).read12bit RAW_ANGLE_ADR
      (mockBus (fun _ => [0x0f, 0xff]))).1 = 4095 := by decide
  have hv : ((as5600.mk 7 0x36 0 0 0).getRawAngle (mockBus (fun _ => [0x0f, 0xff]))).1
      = 2952069 / 8192 := by
    rw [getRawAngle_fst, hr]
    exact rawAngle_4095
  refine ⟨hr, hv, ?_⟩
  rw [hv]; norm_num

/-- C5 (as amended): a driver constructed over the mocked transport that
answers the max-angle register with `0x0f, 0xff`, the start-position and
stop-position registers with `0, 0` and the angle register `0x0e` with
`0x08, 0x00` caches `maxAngle = 4095`, `startPos = 0`, `stopPos = 0`; the
following `getAngle` reads the count `0x800 = 2048` and returns the `float`
product of `2048` and the `float` nearest to the `double` value of
`(4095*0.088)/4096`, which is `2952069 / 16384 = 180.17999267578125`, within
`0.18` of `180.0` degrees. -/
theorem getAngle_end_to_end (mem : as5600) (_i2c : Nat) :
    (as5600.as5600_i2c mem _i2c (endToEndBus ANGLE_ADR)).1 = as5600.mk _i2c 0x36 0 0 4095
    ∧ ((as5600.as5600_i2c mem _i2c (endToEndBus ANGLE_ADR)).1.read12bit ANGLE_ADR
        (as5600.as5600_i2c mem _i2c (endToEndBus ANGLE_ADR)).2).1 = 2048
    ∧ ((as5600.as5600_i2c mem _i2c (endToEndBus ANGLE_ADR)).1.getAngle
        (as5600.as5600_i2c mem _i2c (endToEndBus ANGLE_ADR)).2).1
        = fmul (toFloat 2048)
            (toFloat (ddiv (dmul (toDouble 4095) (toDouble 0.088)) (toDouble 4096)))
    ∧ ((as5600.as5600_i2c mem _i2c (endToEndBus ANGLE_ADR)).1.getAngle
        (as5600.as5600_i2c mem _i2c (endToEndBus ANGLE_ADR)).2).1 = 2952069 / 16384
    ∧ |((as5600.as5600_i2c mem _i2c (endToEndBus ANGLE_ADR)).1.getAngle
        (as5600.as5600_i2c mem _i2c (endToEndBus ANGLE_ADR)).2).1 - 180.0| ≤ 0.18
    ∧ |((as5600.as5600_i2c mem _i2c (endToEndBus ANGLE_ADR)).1.getAngle
        (as5600.as5600_i2c mem _i2c (endToEndBus ANGLE_ADR)).2).1
          - 2048 * ((4095 * 0.088) / 4096)| ≤ 0.00001 := by
  have hc : (as5600.as5600_i2c mem _i2c (endToEndBus ANGLE_ADR)).1
      = as5600.mk _i2c 0x36 0 0 4095 := by
    rw [as5600_i2c_eq, as5600_i2c_address_eq]
    simp [Bus.next12, Bus.rx, Bus.after, endToEndBus, mockBus, ZPOS_ADR, MPOS_ADR, MANG_ADR]
  have hr : ((as5600.as5600_i2c mem _i2c (endToEndBus ANGLE_ADR)).1.read12bit ANGLE_ADR
      (as5600.as5600_i2c mem _i2c (endToEndBus ANGLE_ADR)).2).1 = 2048 := by
    rw [as5600_i2c_eq, as5600_i2c_address_eq, read12bit_fst]
    simp [Bus.rx, Bus.after, endToEndBus, mockBus, ZPOS_ADR, MPOS_ADR, MANG_ADR, ANGLE_ADR]
  have hm : (as5600.mk _i2c 0x36 0 0 4095).getAngle_multiplier
      = toFloat (ddiv (dmul (toDouble ((4095 : ℕ) : ℚ)) (toDouble 0.088)) (toDouble 4096)) :=
    getAngle_multiplier_of_maxAngle_pos _ (show 0 < 4095 by decide)
  have hv : ((as5600.as5600_i2c mem _i2c (endToEndBus ANGLE_ADR)).1.getAngle
      (as5600.as5600_i2c mem _i2c (endToEndBus ANGLE_ADR)).2).1 = 2952069 / 16384 := by
    rw [getAngle_fst, hr, hc, hm, multiplier_4095, Nat.cast_ofNat, toFloat_2048,
      fmul_2048_mult_4095]
  refine ⟨hc, hr, ?_, hv, ?_, ?_⟩
  · rw [getAngle_fst, hr, hc, hm, Nat.cast_ofNat, Nat.cast_ofNat]
  · rw [hv]; norm_num [abs_le]
  · rw [hv]; norm_num [abs_le]

/-- C5, the claim as first stated fails: over the mocked transport that answers
the angle register `0x0e` with `0x08, 0x00`, `getAngle` returns the `float`
`2952069 / 16384`, which is neither the rational `2048 * ((4095*0.088)/4096)`
nor that expression evaluated in `double` arithmetic; and over the one that
answers only the raw-angle register `0x0c` with `0x08, 0x00`, `getAngle`, which
reads register `0x0e`, returns `0`. -/
theorem getAngle_end_to_end_not_exact :
    ((as5600.as5600_i2c (as5600.mk 0 0 0 0 0) 7 (endToEndBus ANGLE_ADR)).1.getAngle
        (as5600.as5600_i2c (as5600.mk 0 0 0 0 0) 7 (endToEndBus ANGLE_ADR)).2).1
        ≠ 2048 * ((4095 * 0.088) / 4096)
    ∧ ((as5600.as5600_i2c (as5600.mk 0 0 0 0 0) 7 (endToEndBus ANGLE_ADR)).1.getAngle
        (as5600.as5600_i2c (as5600.mk 0 0 0 0 0) 7 (endToEndBus ANGLE_ADR)).2).1
        ≠ dmul (toDouble 2048)
            (ddiv (dmul (toDouble 4095) (toDouble 0.088)) (toDouble 4096))
    ∧ ((as5600.as5600_i2c (as5600.mk 0 0 0 0 0) 7 (endToEndBus RAW_ANGLE_ADR)).1.getAngle
        (as5600.as5600_i2c (as5600.mk 0 0 0 0 0) 7 (endToEndBus RAW_ANGLE_ADR)).2).1 = 0
    ∧ ((as5600.as5600_i2c (as5600.mk 0 0 0 0 0) 7 (endToEndBus RAW_ANGLE_ADR)).1.getAngle
        (as5600.as5600_i2c (as5600.mk 0 0 0 0 0) 7 (endToEndBus RAW_ANGLE_ADR)).2).1
        ≠ 2048 * ((4095 * 0.088) / 4096) := by
  have hc : (as5600.as5600_i2c (as5600.mk 0 0 0 0 0) 7 (endToEndBus ANGLE_ADR)).1
      = as5600.mk 7 0x36 0 0 4095 := by decide
  have hr : ((as5600.as5600_i2c (as5600.mk 0 0 0 0 0) 7 (endToEndBus ANGLE_ADR)).1.read12bit
      ANGLE_ADR (as5600.as5600_i2c (as5600.mk 0 0 0 0 0) 7 (endToEndBus ANGLE_ADR)).2).1
      = 2048 := by decide
  have hm : (as5600.mk 7 0x36 0 0 4095).getAngle_multiplier = 2952069 / 33554432 := by
    rw [getAngle_multiplier_of_maxAngle_pos _ (show 0 < 4095 by decide)]
    exact multiplier_4095
  have hv : ((as5600.as5600_i2c (as5600.mk 0 0 0 0 0) 7 (endToEndBus ANGLE_ADR)).1.getAngle
      (as5600.as5600_i2c (as5600.mk 0 0 0 0 0) 7 (endToEndBus ANGLE_ADR)).2).1
      = 2952069 / 16384 := by
    rw [getAngle_fst, hr, hc, hm, Nat.cast_ofNat, toFloat_2048, fmul_2048_mult_4095]
  have hr0 : ((as5600.as5600_i2c (as5600.mk 0 0 0 0 0) 7
      (endToEndBus RAW_ANGLE_ADR)).1.read12bit ANGLE_ADR
      (as5600.as5600_i2c (as5600.mk 0 0 0 0 0) 7 (endToEndBus RAW_ANGLE_ADR)).2).1 = 0 := by
    decide
  have hv0 : ((as5600.as5600_i2c (as5600.mk 0 0 0 0 0) 7
      (endToEndBus RAW_ANGLE_ADR)).1.getAngle
      (as5600.as5600_i2c (as5600.mk 0 0 0 0 0) 7 (endToEndBus RAW_ANGLE_ADR)).2).1 = 0 := by
    rw [getAngle_fst, hr0, Nat.cast_zero, toFloat, roundTo_zero, fmul, zero_mul, toFloat,
      roundTo_zero]
  refine ⟨?_, ?_, hv0, ?_⟩
  · rw [hv]; norm_num
  · rw [hv, double_expr_4095]; norm_num
  · rw [hv0]; norm_num

/-! ## Calibration writes -/

/-- C6: when the device answers the raw-angle read with the bytes `b0`, `b1`,
`setAngleAsStart` adds to the bus trace exactly one 2-byte read of the raw-angle
register `0x0c` followed by one 2-byte write of `[b0 & 0x0f, b1]` to the
zero-position register `0x01`; `setAngleAsStop` adds the same read followed by
the same write to the max-position register `0x03`. -/
theorem setAngle_trace (this : as5600) (bus : Bus) (b0 b1 : Nat)
    (h : bus.nextRead (this.address <<< 1) RAW_ANGLE_ADR 2 = [b0, b1]) :
    (this.setAngleAsStart bus).2.trace
      = bus.trace ++
        [Transfer.memRead this.i2c ((this.address <<< 1) % 65536) 0x0c 1 2 1000,
         Transfer.memWrite this.i2c ((this.address <<< 1) % 65536) 0x01 1
           [b0 &&& 0x0f, b1] 2 1000]
    ∧ (this.setAngleAsStop bus).2.trace
      = bus.trace ++
        [Transfer.memRead this.i2c ((this.address <<< 1) % 65536) 0x0c 1 2 1000,
         Transfer.memWrite this.i2c ((this.address <<< 1) % 65536) 0x03 1
           [b0 &&& 0x0f, b1] 2 1000] := by
  have hm : (b0 &&& 0x0f) % 256 = b0 &&& 0x0f := by
    rw [and_0x0f]; omega
  constructor
  · simp only [as5600.setAngleAsStart, HAL_I2C_Mem_Read, HAL_I2C_Mem_Write, Nat.reduceMod, h,
      List.getD_cons_zero, hm, List.set_cons_zero, List.append_assoc]
    rfl
  · simp only [as5600.setAngleAsStop, HAL_I2C_Mem_Read, HAL_I2C_Mem_Write, Nat.reduceMod, h,
      List.getD_cons_zero, hm, List.set_cons_zero, List.append_assoc]
    rfl

/-- Instance of `setAngle_trace`: with the raw-angle bytes `0xa8, 0x34` on a
fresh bus, `setAngleAsStart` reads register `0x0c` and writes `[0x08, 0x34]` to
register `0x01` at bus address `0x6c`. -/
theorem setAngle_trace_witness :
    (mockBus (fun _ => [0xa8, 0x34])).nextRead ((as5600.mk 7 0x36 0 0 0).address <<< 1)
        RAW_ANGLE_ADR 2 = [0xa8, 0x34]
    ∧ ((as5600.mk 7 0x36 0 0 0).setAngleAsStart (mockBus (fun _ => [0xa8, 0x34]))).2.trace
        = [Transfer.memRead 7 0x6c 0x0c 1 2 1000,
           Transfer.memWrite 7 0x6c 0x01 1 [0x08, 0x34] 2 1000] :=
  ⟨by decide,
   (setAngle_trace (as5600.mk 7 0x36 0 0 0) (mockBus (fun _ => [0xa8, 0x34])) 0xa8 0x34
      (by decide)).1⟩

/-! ## The calibration cache -/

/-- C7: `setAngleAsStart`, `setAngleAsStop`, `checkMagnet`, `getAngle` and
`getRawAngle` leave the object (transport handle, device address, cached
`startPos`, `stopPos`, `maxAngle`) unchanged for every bus; so after
`setAngleAsStart` or `setAngleAsStop` the multiplier of `getAngle` and its
result are what they were before; and `getAngle` issues one transfer only, the
2-byte read of the angle register `0x0e`. -/
theorem calibration_cache_frame (this : as5600) (bus bus2 : Bus) :
    (this.setAngleAsStart bus).1 = this
    ∧ (this.setAngleAsStop bus).1 = this
    ∧ (this.checkMagnet bus).2.1 = this
    ∧ (this.getAngle bus).2.1 = this
    ∧ (this.getRawAngle bus).2.1 = this
    ∧ (this.setAngleAsStart bus).1.getAngle_multiplier = this.getAngle_multiplier
    ∧ (this.setAngleAsStop bus).1.getAngle_multiplier = this.getAngle_multiplier
    ∧ ((this.setAngleAsStart bus).1.getAngle bus2).1 = (this.getAngle bus2).1
    ∧ ((this.setAngleAsStop bus).1.getAngle bus2).1 = (this.getAngle bus2).1
    ∧ (this.getAngle bus).2.2.trace
        = bus.trace ++ [Transfer.memRead this.i2c ((this.address <<< 1) % 65536) 0x0e 1 2 1000] :=
  ⟨rfl, rfl, checkMagnet_snd this bus, rfl, rfl, rfl, rfl, rfl, rfl,
   read12bit_trace this ANGLE_ADR bus⟩

/-- C8: after construction by either constructor, followed by any sequence of
method calls (the cache-refreshing `getStartPos`, `getStopPos`, `getMaxAngle`
included) and whatever bytes the bus delivers, each of the cached `startPos`,
`stopPos` and `maxAngle` lies in `[0, 4095]`. -/
theorem cache_in_range_reachable (mem : as5600) (_i2c _address : Nat) (bus : Bus)
    (ops : List Op) :
    (0 ≤ (runOps ops (as5600.as5600_i2c_address mem _i2c _address bus)).1.startPos
      ∧ (runOps ops (as5600.as5600_i2c_address mem _i2c _address bus)).1.startPos ≤ 4095
      ∧ 0 ≤ (runOps ops (as5600.as5600_i2c_address mem _i2c _address bus)).1.stopPos
      ∧ (runOps ops (as5600.as5600_i2c_address mem _i2c _address bus)).1.stopPos ≤ 4095
      ∧ 0 ≤ (runOps ops (as5600.as5600_i2c_address mem _i2c _address bus)).1.maxAngle
      ∧ (runOps ops (as5600.as5600_i2c_address mem _i2c _address bus)).1.maxAngle ≤ 4095)
    ∧ (0 ≤ (runOps ops (as5600.as5600_i2c mem _i2c bus)).1.startPos
      ∧ (runOps ops (as5600.as5600_i2c mem _i2c bus)).1.startPos ≤ 4095
      ∧ 0 ≤ (runOps ops (as5600.as5600_i2c mem _i2c bus)).1.stopPos
      ∧ (runOps ops (as5600.as5600_i2c mem _i2c bus)).1.stopPos ≤ 4095
      ∧ 0 ≤ (runOps ops (as5600.as5600_i2c mem _i2c bus)).1.maxAngle
      ∧ (runOps ops (as5600.as5600_i2c mem _i2c bus)).1.maxAngle ≤ 4095) := by
  have h1 := runOps_preserves_cache ops _ (constructor_cache mem _i2c _address bus)
  have h2 := runOps_preserves_cache ops _ (constructor_cache mem _i2c 0x36 bus)
  rw [← as5600_i2c_eq] at h2
  exact ⟨⟨Nat.zero_le _, h1.1, Nat.zero_le _, h1.2.1, Nat.zero_le _, h1.2.2⟩,
    ⟨Nat.zero_le _, h2.1, Nat.zero_le _, h2.2.1, Nat.zero_le _, h2.2.2⟩⟩

/-! ## Construction -/

/-- C9: the one-argument constructor leaves the same object and the same bus as
the two-argument constructor called with address `0x36`.  The two-argument
constructor adds to the bus trace exactly three 2-byte reads, of the registers
`0x01`, `0x03`, `0x05` in that order, at bus address `address << 1` (`0x6c` for
the default), and no write, 6 bytes of traffic in all; it stores the handle and
the address, and the cache holds the 12-bit values of those three reads. -/
theorem constructor_spec (mem : as5600) (_i2c _address : Nat) (bus : Bus) :
    as5600.as5600_i2c mem _i2c bus = as5600.as5600_i2c_address mem _i2c 0x36 bus
    ∧ (as5600.as5600_i2c_address mem _i2c _address bus).2.trace
        = bus.trace ++
          [Transfer.memRead _i2c ((_address % 256) <<< 1) 0x01 1 2 1000,
           Transfer.memRead _i2c ((_address % 256) <<< 1) 0x03 1 2 1000,
           Transfer.memRead _i2c ((_address % 256) <<< 1) 0x05 1 2 1000]
    ∧ (as5600.as5600_i2c mem _i2c bus).2.trace
        = bus.trace ++
          [Transfer.memRead _i2c 0x6c 0x01 1 2 1000,
           Transfer.memRead _i2c 0x6c 0x03 1 2 1000,
           Transfer.memRead _i2c 0x6c 0x05 1 2 1000]
    ∧ traffic (as5600.as5600_i2c_address mem _i2c _address bus).2.trace
        = traffic bus.trace + 6
    ∧ (as5600.as5600_i2c_address mem _i2c _address bus).2.device = bus.device
    ∧ (as5600.as5600_i2c_address mem _i2c _address bus).1.i2c = _i2c
    ∧ (as5600.as5600_i2c_address mem _i2c _address bus).1.address = _address % 256
    ∧ (as5600.as5600_i2c_address mem _i2c _address bus).1.startPos
        = bus.next12 ((_address % 256) <<< 1) 0x01
    ∧ (as5600.as5600_i2c_address mem _i2c _address bus).1.stopPos
        = (bus.after [Transfer.memRead _i2c ((_address % 256) <<< 1) 0x01 1 2 1000]).next12
            ((_address % 256) <<< 1) 0x03
    ∧ (as5600.as5600_i2c_address mem _i2c _address bus).1.maxAngle
        = (bus.after [Transfer.memRead _i2c ((_address % 256) <<< 1) 0x01 1 2 1000,
            Transfer.memRead _i2c ((_address % 256) <<< 1) 0x03 1 2 1000]).next12
            ((_address % 256) <<< 1) 0x05 := by
  refine ⟨rfl, ?_, ?_, ?_, ?_, ?_, ?_, ?_, ?_, ?_⟩
  · rw [as5600_i2c_address_eq]; rfl
  · rw [as5600_i2c_eq, as5600_i2c_address_eq]; rfl
  · rw [as5600_i2c_address_eq]
    simp [traffic, Bus.after, Transfer.size]
  all_goals (rw [as5600_i2c_address_eq]; try rfl)

end AS5600Lib
